import Mathlib

/-!
Verification of the task-queue factory of `aquadoggo` (`src/aquadoggo/src/worker.rs`)
against its natural-language specification.

The Rust module is embedded shallowly: each worker pool is a `PoolState` holding
the `WorkerManager` fields (`input_index`, `queue`), the dispatcher's id counter,
and ghost history fields recording which items are currently being executed by a
worker (`running`), the order of admissions and pops (`admitted`, `popped`), the
follow-on tasks the pool's workers sent to the broadcast bus (`sent`), and
whether a worker panicked (`panicked`).  The concurrent execution of the
dispatcher task and the worker tasks is an interleaving of three atomic events:
the dispatcher handling one received announcement (the body of the `match` arm
at worker.rs lines 335-351, performed under the `input_index` mutex), a worker
popping the FIFO head (line 388), and a worker's work function returning,
followed by the index removal and result handling (lines 391-418, performed
under the `input_index` mutex).  The broadcast bus delivers announcements to
each subscriber in send order, so a run of one pool is a list of events
consumed in order.
-/

namespace Aquadoggo

/-- Worker pools are identified by simple string values (worker.rs line 117). -/
abbrev WorkerName := String

/-- A task holding the name of the worker pool which will process it and a
generic input value (worker.rs line 93: `pub struct Task<IN>(WorkerName, IN)`). -/
structure Task (IN : Type) where
  name : WorkerName
  input : IN
deriving DecidableEq

/-- Possible return values of a failed task (worker.rs lines 108-114). -/
inductive TaskError where
  | Critical
  | Failure
deriving DecidableEq

/-- Return value of every processed task (worker.rs line 105:
`Result<Option<Vec<Task<IN>>>, TaskError>`). -/
abbrev TaskResult (IN : Type) := Except TaskError (Option (List (Task IN)))

/-- A queue item: an admitted task extended with its unique id
(worker.rs lines 199-208). -/
structure QueueItem (IN : Type) where
  id : Nat
  input : IN
deriving DecidableEq

/-- The modulus of the dispatcher's id counter: the counter is an `AtomicU64`
(worker.rs line 324) and `AtomicU64::fetch_add` wraps around on overflow, so
every stored counter value and every assigned id is reduced modulo `2 ^ 64`. -/
def u64Modulus : Nat := 2 ^ 64

/-- State of one registered worker pool.  `inputIndex` and `queue` are the
`WorkerManager` fields (worker.rs lines 133-145; the hash set is modelled as a
duplicate-free list), `counter` is the dispatcher's wrapping `AtomicU64` id
counter (line 324), kept below `u64Modulus`.  The remaining fields are ghost
history: `running` holds the items popped by workers whose work function has
not yet returned, `admitted` and `popped` record the queue items in admission
order and pop order, `sent` records the tasks the pool's workers sent to the
broadcast bus, and `panicked` records whether a worker hit the
`Err(Critical)` panic. -/
structure PoolState (IN : Type) where
  inputIndex : List IN
  queue : List (QueueItem IN)
  counter : Nat
  running : List (QueueItem IN)
  admitted : List (QueueItem IN)
  popped : List (QueueItem IN)
  sent : List (Task IN)
  panicked : Bool
deriving DecidableEq

/-- A fresh worker manager: empty index and queue (worker.rs lines 152-157),
id counter at zero (line 324), empty history. -/
def initPool (IN : Type) : PoolState IN :=
  ⟨[], [], 0, [], [], [], [], false⟩

/-- Sending one message on the broadcast channel appends it to the stream of
announcements, which the bus delivers to every subscriber in send order.  Both
`Factory::queue` (worker.rs lines 300-304) and the worker fan-out loop
(lines 402-406) publish through this same path (`self.tx.send` / `tx.send`). -/
def busSend {IN : Type} (bus : List (Task IN)) (t : Task IN) : List (Task IN) :=
  bus ++ [t]

/-- The dispatcher's handling of one received announcement
(worker.rs lines 335-351): a task for another pool is skipped (line 336); a
task whose input is already in `input_index` is skipped (line 343); otherwise
`counter.fetch_add(1, Ordering::Relaxed)` yields the current counter value as
the next id and stores the incremented value, wrapping on `u64` overflow
(line 348, modelled by the explicit `% u64Modulus`); the item is pushed on the
FIFO tail (line 349) and the input is inserted into the index (line 350), all
under the `input_index` mutex. -/
def dispatcherAdmit {IN : Type} [DecidableEq IN] (name : WorkerName)
    (s : PoolState IN) (t : Task IN) : PoolState IN :=
  if t.name ≠ name then s
  else if t.input ∈ s.inputIndex then s
  else
    { s with
      queue := s.queue ++ [QueueItem.mk s.counter t.input],
      inputIndex := t.input :: s.inputIndex,
      counter := (s.counter + 1) % u64Modulus,
      admitted := s.admitted ++ [QueueItem.mk s.counter t.input] }

/-- A worker popping the FIFO (worker.rs line 388): on `Some(item)` the worker
starts executing the work function on the item (modelled by moving the item
into `running`); on `None` the worker yields (line 422), leaving the state
unchanged. -/
def workerPop {IN : Type} (s : PoolState IN) : PoolState IN :=
  match s.queue with
  | [] => s
  | item :: rest =>
    { s with
      queue := rest,
      running := s.running ++ [item],
      popped := s.popped ++ [item] }

/-- Removes the first occurrence of `a` from a list.  This models
`HashSet::remove` on the duplicate-free `input_index` and the end of a popped
item's stay in the ghost `running` list. -/
def removeFirst {α : Type} [DecidableEq α] (a : α) : List α → List α
  | [] => []
  | b :: rest => if b = a then rest else b :: removeFirst a rest

/-- The state change common to every result branch of a finishing worker
(worker.rs lines 393-396): the input is removed from `input_index` after the
work function returned, and the item stops being in flight. -/
def finishRemove {IN : Type} [DecidableEq IN] (s : PoolState IN)
    (item : QueueItem IN) : PoolState IN :=
  { s with
    running := removeFirst item s.running,
    inputIndex := removeFirst item.input s.inputIndex }

/-- A worker's behaviour once the work function has returned `result` for
`item` (worker.rs lines 391-418): first the input is removed from
`input_index` (lines 395-396), then the result is inspected (lines 398-418):
`Ok(Some(list))` sends every follow-on task to the broadcast bus in list order
through the same send path as `Factory::queue` (lines 400-407); `Err(Critical)`
panics (lines 408-413); `Err(Failure)` does nothing further (lines 414-416);
`Ok(None)` does nothing further (line 417).  A `finish` event for an item no
worker is executing is a no-op of the scheduling model. -/
def workerFinish {IN : Type} [DecidableEq IN] (s : PoolState IN)
    (item : QueueItem IN) (result : TaskResult IN) : PoolState IN :=
  if item ∈ s.running then
    match result with
    | .ok (some list) =>
      { finishRemove s item with sent := list.foldl busSend s.sent }
    | .ok none => finishRemove s item
    | .error .Critical => { finishRemove s item with panicked := true }
    | .error .Failure => finishRemove s item
  else s

/-- One scheduler event of a pool: the dispatcher receives the next
announcement from the bus (announcements arrive in send order), some worker
pops the FIFO head, or the work function of an in-flight item returns. -/
inductive Event (IN : Type) where
  | recv (t : Task IN)
  | pop
  | finish (item : QueueItem IN) (result : TaskResult IN)

/-- Interleaving semantics of the pool named `name`. -/
def step {IN : Type} [DecidableEq IN] (name : WorkerName) (s : PoolState IN) :
    Event IN → PoolState IN
  | .recv t => dispatcherAdmit name s t
  | .pop => workerPop s
  | .finish item result => workerFinish s item result

/-- Runs a sequence of events from a state. -/
def exec {IN : Type} [DecidableEq IN] (name : WorkerName) (s : PoolState IN)
    (es : List (Event IN)) : PoolState IN :=
  es.foldl (step name) s

/-- What `rx.recv().await` can yield to the dispatcher (worker.rs line 333
and `tokio::sync::broadcast::error::RecvError`): a task, a lag error carrying
the number of skipped messages, or a closed channel. -/
inductive RecvMsg (IN : Type) where
  | ok (t : Task IN)
  | lagged (skipped : Nat)
  | closed

/-- Control flow of the dispatcher task after one iteration of its `loop`:
the loop runs another iteration, the spawned task ends, or it panics. -/
inductive LoopOutcome where
  | next
  | ended
  | fatal
deriving DecidableEq

/-- One iteration of the dispatcher's `loop` (worker.rs lines 332-361): on a
received task the dispatcher handles it and loops (lines 335-351); on
`RecvError::Lagged` it panics (lines 354-357); on `RecvError::Closed` the match
arm evaluates to `()` (line 359) and, the loop containing no break or return,
the next iteration begins. -/
def dispatcherIteration {IN : Type} [DecidableEq IN] (name : WorkerName)
    (s : PoolState IN) : RecvMsg IN → PoolState IN × LoopOutcome
  | .ok t => (dispatcherAdmit name s t, .next)
  | .lagged _ => (s, .fatal)
  | .closed => (s, .next)

/-- The kinds of background tasks `Factory::register` spawns via
`tokio::task::spawn`. -/
inductive SpawnKind where
  | dispatcher
  | worker
deriving DecidableEq

/-- Factory state (worker.rs lines 231-244): the registry of worker pools
(`managers`, the hash map modelled as an association list), a ghost record of
the background tasks spawned so far (`spawned`, in spawn order) and the
messages sent on the broadcast bus (`bus`). -/
structure FactoryState (IN : Type) where
  managers : List (WorkerName × PoolState IN)
  spawned : List (WorkerName × SpawnKind)
  bus : List (Task IN)
deriving DecidableEq

/-- A freshly initialised factory (worker.rs lines 259-267): empty registry,
nothing spawned, nothing sent. -/
def initFactory (IN : Type) : FactoryState IN :=
  ⟨[], [], []⟩

/-- `HashMap::get` on the association list of managers. -/
def lookupManager {IN : Type} : List (WorkerName × PoolState IN) → WorkerName →
    Option (PoolState IN)
  | [], _ => none
  | (k, v) :: rest, n => if k = n then some v else lookupManager rest n

/-- `Factory::register` (worker.rs lines 279-294): panics (`none`) when a pool
with this name is already registered (`contains_key`, lines 285-286); otherwise
inserts a fresh `WorkerManager` (lines 288-289), then `spawn_dispatcher`
spawns one dispatcher task (line 331) and `spawn_workers` spawns one worker
task per iteration of `for _ in 0..pool_size` (lines 379-385). -/
def register {IN : Type} (f : FactoryState IN) (name : WorkerName)
    (pool_size : Nat) : Option (FactoryState IN) :=
  if (lookupManager f.managers name).isSome then none
  else
    some
      { f with
        managers := f.managers ++ [(name, initPool IN)],
        spawned := f.spawned ++
          (name, SpawnKind.dispatcher) ::
            List.replicate pool_size (name, SpawnKind.worker) }

/-- `Factory::queue` (worker.rs lines 300-304): publish the task on the
broadcast bus. -/
def queueTask {IN : Type} (f : FactoryState IN) (t : Task IN) : FactoryState IN :=
  { f with bus := busSend f.bus t }

/-- `Factory::is_empty` (worker.rs lines 307-312): emptiness of the named
pool's FIFO, `false` when no pool of that name exists. -/
def is_empty {IN : Type} (f : FactoryState IN) (name : WorkerName) : Bool :=
  match lookupManager f.managers name with
  | some manager => manager.queue.isEmpty
  | none => false

/-- A concrete pool name used for witnesses. -/
def pname : WorkerName := "square"

/-! ### Helper lemmas about `removeFirst` -/

lemma removeFirst_sublist {α : Type} [DecidableEq α] (a : α) :
    ∀ l : List α, List.Sublist (removeFirst a l) l := by
  intro l
  induction l with
  | nil => simp [removeFirst]
  | cons b rest ih =>
    by_cases hb : b = a
    · simp only [removeFirst, if_pos hb]
      exact List.sublist_cons_self b rest
    · simp only [removeFirst, if_neg hb]
      exact List.Sublist.cons₂ b ih

lemma nodup_removeFirst {α : Type} [DecidableEq α] {a : α} {l : List α}
    (h : l.Nodup) : (removeFirst a l).Nodup :=
  h.sublist (removeFirst_sublist a l)

lemma mem_removeFirst {α : Type} [DecidableEq α] {x a : α} {l : List α}
    (h : l.Nodup) : x ∈ removeFirst a l ↔ x ∈ l ∧ x ≠ a := by
  induction l with
  | nil => simp [removeFirst]
  | cons b rest ih =>
    have hb : b ∉ rest := (List.nodup_cons.mp h).1
    have hrest : rest.Nodup := (List.nodup_cons.mp h).2
    by_cases hba : b = a
    · subst hba
      simp only [removeFirst, if_pos rfl, List.mem_cons]
      constructor
      · intro hx
        refine ⟨Or.inr hx, ?_⟩
        intro hxb
        exact hb (hxb ▸ hx)
      · rintro ⟨hx | hx, hne⟩
        · exact absurd hx hne
        · exact hx
    · simp only [removeFirst, if_neg hba, List.mem_cons, ih hrest]
      constructor
      · rintro (rfl | ⟨hx, hne⟩)
        · exact ⟨Or.inl rfl, fun hc => hba hc⟩
        · exact ⟨Or.inr hx, hne⟩
      · rintro ⟨rfl | hx, hne⟩
        · exact Or.inl rfl
        · exact Or.inr ⟨hx, hne⟩

lemma map_removeFirst {α β : Type} [DecidableEq α] [DecidableEq β]
    {f : α → β} {a : α} {l : List α} (hnd : (l.map f).Nodup) (ha : a ∈ l) :
    (removeFirst a l).map f = removeFirst (f a) (l.map f) := by
  induction l with
  | nil => cases ha
  | cons b rest ih =>
    have hfb : f b ∉ rest.map f := (List.nodup_cons.mp (by simpa using hnd)).1
    have hrest : (rest.map f).Nodup := (List.nodup_cons.mp (by simpa using hnd)).2
    by_cases hba : b = a
    · subst hba
      simp [removeFirst]
    · have harest : a ∈ rest := by
        cases List.mem_cons.mp ha with
        | inl hc => exact absurd hc.symm hba
        | inr hc => exact hc
      have hfba : f b ≠ f a := by
        intro hc
        exact hfb (hc ▸ List.mem_map_of_mem f harest)
      simp [removeFirst, hba, hfba, ih hrest harest]

lemma foldl_busSend {IN : Type} (list : List (Task IN)) :
    ∀ bus : List (Task IN), list.foldl busSend bus = bus ++ list := by
  induction list with
  | nil => intro bus; simp
  | cons t rest ih => intro bus; simp [busSend, ih]

/-! ### The reachability invariant of one pool -/

/-- Invariant holding at every state of a pool reachable from `initPool`:
the dedup index is exactly the set of inputs which are either waiting in the
FIFO or in flight at some worker; those inputs are pairwise distinct; the
index holds no duplicates; the i-th item ever admitted carries the wrapped id
`i % 2 ^ 64`; the counter equals the number of admissions reduced modulo
`2 ^ 64`; and the admission history is the pop history followed by the items
still waiting in the FIFO. -/
structure Inv {IN : Type} (s : PoolState IN) : Prop where
  index_iff : ∀ x, x ∈ s.inputIndex ↔
    (x ∈ s.queue.map QueueItem.input ∨ x ∈ s.running.map QueueItem.input)
  inputs_nodup : (s.queue.map QueueItem.input ++ s.running.map QueueItem.input).Nodup
  index_nodup : s.inputIndex.Nodup
  admitted_ids : s.admitted.map QueueItem.id =
    (List.range s.admitted.length).map (fun i => i % u64Modulus)
  counter_eq : s.counter = s.admitted.length % u64Modulus
  hist_eq : s.admitted = s.popped ++ s.queue

lemma inv_initPool (IN : Type) : Inv (initPool IN) := by
  constructor <;> simp [initPool]

lemma inv_dispatcherAdmit {IN : Type} [DecidableEq IN] {s : PoolState IN}
    (name : WorkerName) (t : Task IN) (h : Inv s) :
    Inv (dispatcherAdmit name s t) := by
  unfold dispatcherAdmit
  split
  · exact h
  split
  · exact h
  rename_i hmem
  constructor
  case index_iff =>
    intro x
    show x ∈ t.input :: s.inputIndex ↔
      (x ∈ (s.queue ++ [QueueItem.mk s.counter t.input]).map QueueItem.input ∨
        x ∈ s.running.map QueueItem.input)
    have hx := h.index_iff x
    simp only [List.mem_cons, List.map_append, List.mem_append, List.map_cons,
      List.map_nil, List.mem_singleton, List.not_mem_nil, or_false] at hx ⊢
    tauto
  case inputs_nodup =>
    show ((s.queue ++ [QueueItem.mk s.counter t.input]).map QueueItem.input ++
      s.running.map QueueItem.input).Nodup
    have hnotq : t.input ∉ s.queue.map QueueItem.input := by
      intro hc
      exact hmem ((h.index_iff t.input).mpr (Or.inl hc))
    have hnotr : t.input ∉ s.running.map QueueItem.input := by
      intro hc
      exact hmem ((h.index_iff t.input).mpr (Or.inr hc))
    have hcons : (s.queue.map QueueItem.input ++
        t.input :: s.running.map QueueItem.input).Nodup := by
      rw [List.nodup_middle]
      exact List.nodup_cons.mpr
        ⟨by simp [List.mem_append, hnotq, hnotr], h.inputs_nodup⟩
    simpa [List.append_assoc] using hcons
  case index_nodup =>
    exact List.nodup_cons.mpr ⟨hmem, h.index_nodup⟩
  case admitted_ids =>
    show (s.admitted ++ [QueueItem.mk s.counter t.input]).map QueueItem.id =
      (List.range (s.admitted ++ [QueueItem.mk s.counter t.input]).length).map
        (fun i => i % u64Modulus)
    rw [List.map_append, h.admitted_ids, h.counter_eq]
    simp [List.range_succ]
  case counter_eq =>
    show (s.counter + 1) % u64Modulus =
      (s.admitted ++ [QueueItem.mk s.counter t.input]).length % u64Modulus
    rw [h.counter_eq]
    simp [Nat.mod_add_mod]
  case hist_eq =>
    show s.admitted ++ [QueueItem.mk s.counter t.input] =
      s.popped ++ (s.queue ++ [QueueItem.mk s.counter t.input])
    rw [h.hist_eq]
    simp [List.append_assoc]

lemma inv_workerPop {IN : Type} {s : PoolState IN} (h : Inv s) :
    Inv (workerPop s) := by
  unfold workerPop
  split
  · exact h
  rename_i item rest heq
  constructor
  case index_iff =>
    intro x
    show x ∈ s.inputIndex ↔
      (x ∈ rest.map QueueItem.input ∨
        x ∈ (s.running ++ [item]).map QueueItem.input)
    have hx := h.index_iff x
    rw [heq] at hx
    simp only [List.map_append, List.mem_append, List.map_cons,
      List.mem_cons, List.map_nil, List.mem_singleton, List.not_mem_nil,
      or_false] at hx ⊢
    tauto
  case inputs_nodup =>
    show (rest.map QueueItem.input ++
      (s.running ++ [item]).map QueueItem.input).Nodup
    have hold : (item.input ::
        (rest.map QueueItem.input ++ s.running.map QueueItem.input)).Nodup := by
      have hh := h.inputs_nodup
      rw [heq] at hh
      simpa using hh
    have hperm : List.Perm
        ((rest.map QueueItem.input ++ s.running.map QueueItem.input) ++ [item.input])
        (item.input ::
          ((rest.map QueueItem.input ++ s.running.map QueueItem.input) ++ [])) :=
      List.perm_middle
    have hnew : ((rest.map QueueItem.input ++ s.running.map QueueItem.input) ++
        [item.input]).Nodup := by
      refine List.Perm.nodup hperm.symm ?_
      simpa using hold
    simpa [List.append_assoc] using hnew
  case index_nodup => exact h.index_nodup
  case admitted_ids => exact h.admitted_ids
  case counter_eq => exact h.counter_eq
  case hist_eq =>
    show s.admitted = (s.popped ++ [item]) ++ rest
    have hh := h.hist_eq
    rw [heq] at hh
    simpa [List.append_assoc] using hh

lemma inv_finishRemove {IN : Type} [DecidableEq IN] {s : PoolState IN}
    {item : QueueItem IN} (hrun : item ∈ s.running) (h : Inv s) :
    Inv (finishRemove s item) := by
  have hnodups := h.inputs_nodup
  have hq : (s.queue.map QueueItem.input).Nodup := (List.nodup_append.mp hnodups).1
  have hr : (s.running.map QueueItem.input).Nodup := (List.nodup_append.mp hnodups).2.1
  have hdisj : (s.queue.map QueueItem.input).Disjoint (s.running.map QueueItem.input) :=
    (List.nodup_append.mp hnodups).2.2
  have hamem : item.input ∈ s.running.map QueueItem.input :=
    List.mem_map_of_mem QueueItem.input hrun
  have hanotq : item.input ∉ s.queue.map QueueItem.input :=
    fun hc => hdisj hc hamem
  have hmapremove : (removeFirst item s.running).map QueueItem.input =
      removeFirst item.input (s.running.map QueueItem.input) :=
    map_removeFirst hr hrun
  constructor
  case index_iff =>
    intro x
    show x ∈ removeFirst item.input s.inputIndex ↔
      (x ∈ s.queue.map QueueItem.input ∨
        x ∈ (removeFirst item s.running).map QueueItem.input)
    rw [mem_removeFirst h.index_nodup, h.index_iff x, hmapremove,
      mem_removeFirst hr]
    constructor
    · rintro ⟨hq' | hr', hne⟩
      · exact Or.inl hq'
      · exact Or.inr ⟨hr', hne⟩
    · rintro (hq' | ⟨hr', hne⟩)
      · refine ⟨Or.inl hq', ?_⟩
        intro hc
        exact hanotq (hc ▸ hq')
      · exact ⟨Or.inr hr', hne⟩
  case inputs_nodup =>
    show (s.queue.map QueueItem.input ++
      (removeFirst item s.running).map QueueItem.input).Nodup
    rw [hmapremove]
    exact hnodups.sublist
      (List.Sublist.append_left
        (removeFirst_sublist item.input (s.running.map QueueItem.input)) _)
  case index_nodup =>
    exact nodup_removeFirst h.index_nodup
  case admitted_ids => exact h.admitted_ids
  case counter_eq => exact h.counter_eq
  case hist_eq => exact h.hist_eq

lemma inv_workerFinish {IN : Type} [DecidableEq IN] {s : PoolState IN}
    (item : QueueItem IN) (result : TaskResult IN) (h : Inv s) :
    Inv (workerFinish s item result) := by
  unfold workerFinish
  split
  · rename_i hrun
    have hcore := inv_finishRemove hrun h
    match result with
    | .ok (some list) =>
      exact ⟨hcore.index_iff, hcore.inputs_nodup, hcore.index_nodup,
        hcore.admitted_ids, hcore.counter_eq, hcore.hist_eq⟩
    | .ok none => exact hcore
    | .error .Critical =>
      exact ⟨hcore.index_iff, hcore.inputs_nodup, hcore.index_nodup,
        hcore.admitted_ids, hcore.counter_eq, hcore.hist_eq⟩
    | .error .Failure => exact hcore
  · exact h

lemma inv_step {IN : Type} [DecidableEq IN] {s : PoolState IN}
    (name : WorkerName) (e : Event IN) (h : Inv s) : Inv (step name s e) := by
  cases e with
  | recv t => exact inv_dispatcherAdmit name t h
  | pop => exact inv_workerPop h
  | finish item result => exact inv_workerFinish item result h

lemma inv_exec {IN : Type} [DecidableEq IN] (name : WorkerName)
    (es : List (Event IN)) :
    ∀ {s : PoolState IN}, Inv s → Inv (exec name s es) := by
  induction es with
  | nil => intro s h; exact h
  | cons e rest ih =>
    intro s h
    exact ih (inv_step name e h)

lemma inv_exec_init {IN : Type} [DecidableEq IN] (name : WorkerName)
    (es : List (Event IN)) : Inv (exec name (initPool IN) es) :=
  inv_exec name es (inv_initPool IN)

lemma workerFinish_fields {IN : Type} [DecidableEq IN] {s : PoolState IN}
    {item : QueueItem IN} (result : TaskResult IN) (hrun : item ∈ s.running) :
    (workerFinish s item result).inputIndex = removeFirst item.input s.inputIndex ∧
    (workerFinish s item result).queue = s.queue ∧
    (workerFinish s item result).counter = s.counter := by
  unfold workerFinish
  rw [if_pos hrun]
  cases result with
  | error e => cases e <;> exact ⟨rfl, rfl, rfl⟩
  | ok o => cases o <;> exact ⟨rfl, rfl, rfl⟩

lemma lookupManager_append_self {IN : Type} (l : List (WorkerName × PoolState IN))
    (name : WorkerName) (p : PoolState IN) (h : lookupManager l name = none) :
    lookupManager (l ++ [(name, p)]) name = some p := by
  induction l with
  | nil => simp [lookupManager]
  | cons kv rest ih =>
    obtain ⟨k, v⟩ := kv
    by_cases hk : k = name
    · simp [lookupManager, hk] at h
    · simp only [List.cons_append, lookupManager, if_neg hk] at h ⊢
      exact ih h

/-! ### Sample runs used by the witnesses -/

/-- A two-event run on inputs of type `Nat`: input 7 is announced and admitted,
then a worker pops it and starts executing it. -/
def sampleEvents : List (Event Nat) :=
  [Event.recv (Task.mk pname 7), Event.pop]

/-- The state reached by `sampleEvents`. -/
def sampleRun : PoolState Nat := exec pname (initPool Nat) sampleEvents

/-- The queue item admitted in `sampleRun` (id 0, input 7). -/
def sampleItem : QueueItem Nat := QueueItem.mk 0 7

/-- The factory obtained by registering `pname` with pool size 2 on a fresh
factory. -/
def sampleFactory : FactoryState Nat :=
  FactoryState.mk [(pname, initPool Nat)]
    ((pname, SpawnKind.dispatcher) :: List.replicate 2 (pname, SpawnKind.worker))
    []

/-! ### The claims -/

/-- C1, as stated, is false on the code: it asserts that at every point of
execution the dedup index equals the set of inputs in the pool's FIFO queue
(and that duplicates are never admitted while an equal input is in the index).
After input 5 is announced, admitted and popped by a worker, the input is
still in `input_index` (the worker removes it only after the work function
returns, worker.rs lines 391-396) while the FIFO queue is already empty. -/
theorem C1_counterexample :
    ¬ ((∀ (es : List (Event Nat)) (x : Nat),
          x ∈ (exec pname (initPool Nat) es).inputIndex ↔
            x ∈ (exec pname (initPool Nat) es).queue.map QueueItem.input) ∧
        (∀ (es : List (Event Nat)) (t : Task Nat),
          t.input ∈ (exec pname (initPool Nat) es).inputIndex →
            step pname (exec pname (initPool Nat) es) (Event.recv t) =
              exec pname (initPool Nat) es)) := by
  intro hclaim
  have h5 := (hclaim.1 [Event.recv (Task.mk pname 5), Event.pop] 5).mp (by decide)
  exact absurd h5 (by decide)

/-- C1 (amended): at every reachable state of a pool the dedup index equals
the set of inputs either waiting in the FIFO queue or currently being executed
by a worker (popped, work function not yet returned), and an announcement
whose input is in the index is never admitted: the dispatcher step leaves the
state unchanged. -/
theorem C1_dedup_index (IN : Type) [DecidableEq IN] (name : WorkerName)
    (es : List (Event IN)) :
    (∀ x : IN, x ∈ (exec name (initPool IN) es).inputIndex ↔
      (x ∈ (exec name (initPool IN) es).queue.map QueueItem.input ∨
        x ∈ (exec name (initPool IN) es).running.map QueueItem.input)) ∧
    (∀ t : Task IN, t.input ∈ (exec name (initPool IN) es).inputIndex →
      step name (exec name (initPool IN) es) (Event.recv t) =
        exec name (initPool IN) es) := by
  refine ⟨(inv_exec_init name es).index_iff, ?_⟩
  intro t hmem
  show dispatcherAdmit name (exec name (initPool IN) es) t = _
  unfold dispatcherAdmit
  by_cases hname : t.name ≠ name
  · rw [if_pos hname]
  · rw [if_neg hname, if_pos hmem]

/-- Witness for C1 (amended): the concrete duplicate announcement of input 5
is rejected. -/
theorem C1_dedup_index_witness :
    step pname (exec pname (initPool Nat) [Event.recv (Task.mk pname 5)])
      (Event.recv (Task.mk pname 5)) =
    exec pname (initPool Nat) [Event.recv (Task.mk pname 5)] :=
  (C1_dedup_index Nat pname [Event.recv (Task.mk pname 5)]).2
    (Task.mk pname 5) (by decide)

/-- C2: while an item is in flight (popped, work function not yet returned),
an announcement of the same pool carrying the identical input is rejected by
the dispatcher (the state is unchanged); the input is removed from the index
only in the finish step, after the work function returned, and immediately
after that step an identical announcement is admitted again (appended to the
FIFO with the next id). -/
theorem C2_dedup_while_running (IN : Type) [DecidableEq IN] (name : WorkerName)
    (es : List (Event IN)) (item : QueueItem IN) (result : TaskResult IN)
    (hrun : item ∈ (exec name (initPool IN) es).running) :
    (step name (exec name (initPool IN) es)
        (Event.recv (Task.mk name item.input)) = exec name (initPool IN) es) ∧
    (item.input ∉
      (workerFinish (exec name (initPool IN) es) item result).inputIndex) ∧
    ((step name (workerFinish (exec name (initPool IN) es) item result)
        (Event.recv (Task.mk name item.input))).queue =
      (workerFinish (exec name (initPool IN) es) item result).queue ++
        [QueueItem.mk
          (workerFinish (exec name (initPool IN) es) item result).counter
          item.input]) := by
  have h := inv_exec_init name es
  have hmem : item.input ∈ (exec name (initPool IN) es).inputIndex :=
    (h.index_iff item.input).mpr
      (Or.inr (List.mem_map_of_mem QueueItem.input hrun))
  have hnotmem : item.input ∉
      (workerFinish (exec name (initPool IN) es) item result).inputIndex := by
    rw [(workerFinish_fields result hrun).1, mem_removeFirst h.index_nodup]
    rintro ⟨-, hne⟩
    exact hne rfl
  refine ⟨?_, hnotmem, ?_⟩
  · show dispatcherAdmit name (exec name (initPool IN) es)
      (Task.mk name item.input) = _
    unfold dispatcherAdmit
    rw [if_neg (by simp), if_pos hmem]
  · show (dispatcherAdmit name
      (workerFinish (exec name (initPool IN) es) item result)
      (Task.mk name item.input)).queue = _
    unfold dispatcherAdmit
    rw [if_neg (by simp), if_neg hnotmem]

/-- Witness for C2 on the concrete run `sampleRun`: input 7 is in flight,
its duplicate is rejected, and after the finish step it is admitted again. -/
theorem C2_dedup_while_running_witness :
    (step pname sampleRun (Event.recv (Task.mk pname 7)) = sampleRun) ∧
    (7 ∉ (workerFinish sampleRun sampleItem (Except.ok none)).inputIndex) ∧
    ((step pname (workerFinish sampleRun sampleItem (Except.ok none))
        (Event.recv (Task.mk pname 7))).queue =
      (workerFinish sampleRun sampleItem (Except.ok none)).queue ++
        [QueueItem.mk
          (workerFinish sampleRun sampleItem (Except.ok none)).counter 7]) :=
  C2_dedup_while_running Nat pname sampleEvents sampleItem (Except.ok none)
    (by decide)

/-- C3: within one pool, admission into the FIFO follows bus delivery order
(the dispatcher handles announcements in delivery order, which is send order:
each admission appends to the FIFO tail and to the admission history) and
pops follow admission order: at every reachable state the admission history
equals the pop history followed by the items still waiting in the FIFO, so
the pop history is a prefix of the admission history — of two admitted items
the earlier-admitted one is popped first. -/
theorem C3_fifo_order (IN : Type) [DecidableEq IN] (name : WorkerName)
    (es : List (Event IN)) :
    (exec name (initPool IN) es).admitted =
      (exec name (initPool IN) es).popped ++
        (exec name (initPool IN) es).queue :=
  (inv_exec_init name es).hist_eq

/-- C4: result handling of a completed worker invocation (worker.rs lines
398-418).  `Ok(Some(list))` publishes exactly the follow-on tasks, in list
order, through the same bus send path as `Factory::queue` (`busSend`);
`Ok(None)` publishes nothing and does not panic; `Err(Failure)` is silent:
nothing is published, no panic, the FIFO is untouched and the input has left
the dedup index, so the task is never retried; `Err(Critical)` panics. -/
theorem C4_result_handling (IN : Type) [DecidableEq IN] (name : WorkerName)
    (es : List (Event IN)) (item : QueueItem IN) (list : List (Task IN))
    (hrun : item ∈ (exec name (initPool IN) es).running) :
    ((workerFinish (exec name (initPool IN) es) item (.ok (some list))).sent =
        list.foldl busSend (exec name (initPool IN) es).sent ∧
      list.foldl busSend (exec name (initPool IN) es).sent =
        (exec name (initPool IN) es).sent ++ list) ∧
    ((workerFinish (exec name (initPool IN) es) item (.ok none)).sent =
        (exec name (initPool IN) es).sent ∧
      (workerFinish (exec name (initPool IN) es) item (.ok none)).panicked =
        (exec name (initPool IN) es).panicked) ∧
    ((workerFinish (exec name (initPool IN) es) item
          (.error TaskError.Failure)).sent =
        (exec name (initPool IN) es).sent ∧
      (workerFinish (exec name (initPool IN) es) item
          (.error TaskError.Failure)).panicked =
        (exec name (initPool IN) es).panicked ∧
      (workerFinish (exec name (initPool IN) es) item
          (.error TaskError.Failure)).queue =
        (exec name (initPool IN) es).queue ∧
      item.input ∉
        (workerFinish (exec name (initPool IN) es) item
          (.error TaskError.Failure)).inputIndex) ∧
    (workerFinish (exec name (initPool IN) es) item
      (.error TaskError.Critical)).panicked = true := by
  have h := inv_exec_init name es
  have hnotmem : item.input ∉
      (workerFinish (exec name (initPool IN) es) item
        (.error TaskError.Failure)).inputIndex := by
    rw [(workerFinish_fields _ hrun).1, mem_removeFirst h.index_nodup]
    rintro ⟨-, hne⟩
    exact hne rfl
  refine ⟨⟨?_, foldl_busSend list _⟩, ⟨?_, ?_⟩, ⟨?_, ?_, ?_, hnotmem⟩, ?_⟩ <;>
    simp [workerFinish, finishRemove, hrun]

/-- Witness for C4 on the concrete run `sampleRun` with one follow-on task. -/
theorem C4_result_handling_witness :
    ((workerFinish sampleRun sampleItem
          (.ok (some [Task.mk pname 9]))).sent =
        [Task.mk pname 9].foldl busSend sampleRun.sent ∧
      [Task.mk pname 9].foldl busSend sampleRun.sent =
        sampleRun.sent ++ [Task.mk pname 9]) ∧
    ((workerFinish sampleRun sampleItem (.ok none)).sent = sampleRun.sent ∧
      (workerFinish sampleRun sampleItem (.ok none)).panicked =
        sampleRun.panicked) ∧
    ((workerFinish sampleRun sampleItem (.error TaskError.Failure)).sent =
        sampleRun.sent ∧
      (workerFinish sampleRun sampleItem (.error TaskError.Failure)).panicked =
        sampleRun.panicked ∧
      (workerFinish sampleRun sampleItem (.error TaskError.Failure)).queue =
        sampleRun.queue ∧
      7 ∉ (workerFinish sampleRun sampleItem
        (.error TaskError.Failure)).inputIndex) ∧
    (workerFinish sampleRun sampleItem (.error TaskError.Critical)).panicked =
      true :=
  C4_result_handling Nat pname sampleEvents sampleItem [Task.mk pname 9]
    (by decide)

/-- C5: `register` panics exactly when a pool of that name already exists
(worker.rs lines 285-286); otherwise it appends a manager with empty queue
and empty index, the name resolves to that manager, and exactly one
dispatcher task plus `pool_size` worker tasks are spawned. -/
theorem C5_register_spec (IN : Type) (f : FactoryState IN) (name : WorkerName)
    (pool_size : Nat) :
    (register f name pool_size = none ↔
      (lookupManager f.managers name).isSome = true) ∧
    (∀ f', register f name pool_size = some f' →
      f'.managers = f.managers ++ [(name, initPool IN)] ∧
      lookupManager f'.managers name = some (initPool IN) ∧
      (initPool IN).queue = [] ∧ (initPool IN).inputIndex = [] ∧
      f'.spawned = f.spawned ++
        (name, SpawnKind.dispatcher) ::
          List.replicate pool_size (name, SpawnKind.worker)) := by
  constructor
  · constructor
    · intro hnone
      by_cases hsome : (lookupManager f.managers name).isSome = true
      · exact hsome
      · rw [register, if_neg hsome] at hnone
        cases hnone
    · intro hsome
      rw [register, if_pos hsome]
  · intro f' hf'
    rw [register] at hf'
    by_cases hsome : (lookupManager f.managers name).isSome = true
    · rw [if_pos hsome] at hf'
      cases hf'
    · rw [if_neg hsome] at hf'
      have hnone := Option.not_isSome_iff_eq_none.mp hsome
      injection hf' with hf'
      subst hf'
      exact ⟨rfl, lookupManager_append_self f.managers name (initPool IN) hnone,
        rfl, rfl, rfl⟩

/-- Witness for C5: registering `pname` with pool size 2 on a fresh factory
yields `sampleFactory`. -/
theorem C5_register_spec_witness :
    sampleFactory.managers =
      (initFactory Nat).managers ++ [(pname, initPool Nat)] ∧
    lookupManager sampleFactory.managers pname = some (initPool Nat) ∧
    (initPool Nat).queue = [] ∧ (initPool Nat).inputIndex = [] ∧
    sampleFactory.spawned = (initFactory Nat).spawned ++
      (pname, SpawnKind.dispatcher) ::
        List.replicate 2 (pname, SpawnKind.worker) :=
  (C5_register_spec Nat (initFactory Nat) pname 2).2 sampleFactory (by decide)

/-- C6, as stated, is false on the code: registering a fresh pool with
`pool_size = 0` does not abort: `Factory::register` checks only for duplicate
names and `spawn_workers` runs its `for _ in 0..pool_size` loop zero times; no
`pool_size >= 1` precondition is enforced anywhere. -/
theorem C6_counterexample :
    (register (initFactory Nat) pname 0).isSome = true := by decide

/-- C6 (amended): `register` with `pool_size = 0` is accepted like any other
registration: on a name not yet registered it succeeds, spawning the
dispatcher task and zero worker tasks, so the pool exists but no worker is
there to process its queue. -/
theorem C6_pool_size_zero (IN : Type) (f : FactoryState IN) (name : WorkerName)
    (h : lookupManager f.managers name = none) :
    register f name 0 = some
      { f with
        managers := f.managers ++ [(name, initPool IN)],
        spawned := f.spawned ++ [(name, SpawnKind.dispatcher)] } := by
  simp [register, h]

/-- Witness for C6 (amended) at the concrete fresh factory. -/
theorem C6_pool_size_zero_witness :
    register (initFactory Nat) pname 0 = some
      { initFactory Nat with
        managers := (initFactory Nat).managers ++ [(pname, initPool Nat)],
        spawned := (initFactory Nat).spawned ++
          [(pname, SpawnKind.dispatcher)] } :=
  C6_pool_size_zero Nat (initFactory Nat) pname (by decide)

/-- C7: behaviour of the dispatcher loop on receiver errors (worker.rs lines
352-360).  On `RecvError::Lagged` the dispatcher panics, as the claim states.
On `RecvError::Closed`, however, the match arm evaluates to `()` and the
enclosing `loop` has no break or return: the next iteration begins, so the
dispatcher task does not end — the code contradicts its own comment ("The
channel got closed, nothing anymore to do here") and the claimed clean
termination. -/
theorem C7_closed_continues (IN : Type) [DecidableEq IN] (name : WorkerName)
    (s : PoolState IN) (n : Nat) :
    dispatcherIteration name s RecvMsg.closed = (s, LoopOutcome.next) ∧
    dispatcherIteration name s (RecvMsg.lagged n) = (s, LoopOutcome.fatal) ∧
    LoopOutcome.next ≠ LoopOutcome.ended :=
  ⟨rfl, rfl, by decide⟩

/-- Running a concatenated event list runs the two halves in sequence. -/
lemma exec_append {IN : Type} [DecidableEq IN] (name : WorkerName)
    (s : PoolState IN) (el er : List (Event IN)) :
    exec name s (el ++ er) = exec name (exec name s el) er :=
  List.foldl_append (step name) s el er

/-- The run announcing the pairwise distinct inputs `0, 1, ..., n - 1` to the
pool `pname`, in that order. -/
def recvAll (n : Nat) : List (Event Nat) :=
  (List.range n).map (fun i => Event.recv (Task.mk pname i))

/-- After `recvAll n` the index holds exactly the inputs `0, ..., n - 1` (none
was a duplicate, so none was suppressed) and exactly `n` items were admitted. -/
lemma recvAll_state (n : Nat) :
    (exec pname (initPool Nat) (recvAll n)).inputIndex =
      (List.range n).reverse ∧
    (exec pname (initPool Nat) (recvAll n)).admitted.length = n := by
  induction n with
  | zero => exact ⟨rfl, rfl⟩
  | succ k ih =>
    obtain ⟨hidx, hlen⟩ := ih
    have hsplit : recvAll (k + 1) =
        recvAll k ++ [Event.recv (Task.mk pname k)] := by
      unfold recvAll
      rw [List.range_succ, List.map_append]
      rfl
    rw [hsplit, exec_append]
    have hstep : exec pname (exec pname (initPool Nat) (recvAll k))
        [Event.recv (Task.mk pname k)] =
      dispatcherAdmit pname (exec pname (initPool Nat) (recvAll k))
        (Task.mk pname k) := rfl
    rw [hstep]
    have hnotmem : (Task.mk pname k).input ∉
        (exec pname (initPool Nat) (recvAll k)).inputIndex := by
      rw [hidx]
      simp [List.mem_reverse, List.mem_range]
    unfold dispatcherAdmit
    rw [if_neg (by simp), if_neg hnotmem]
    constructor
    · show (k : Nat) ::
        (exec pname (initPool Nat) (recvAll k)).inputIndex =
        (List.range (k + 1)).reverse
      rw [hidx, List.range_succ, List.reverse_append]
      rfl
    · show ((exec pname (initPool Nat) (recvAll k)).admitted ++
        [QueueItem.mk (exec pname (initPool Nat) (recvAll k)).counter k]).length
        = k + 1
      simp [hlen]

/-- C8, as stated, is false of the program: the id counter is a wrapping
`AtomicU64`, so on the run announcing `2 ^ 64 + 2` pairwise distinct inputs
the `2 ^ 64`-th admitted item receives id 0 again and the admitted ids are
not strictly increasing. -/
theorem C8_counterexample :
    ¬ (∀ es : List (Event Nat),
        ((exec pname (initPool Nat) es).admitted.map QueueItem.id).Pairwise
          (· < ·)) := by
  intro hclaim
  have h := hclaim (recvAll (u64Modulus + 2))
  have hlen := (recvAll_state (u64Modulus + 2)).2
  have hids := (inv_exec_init pname (recvAll (u64Modulus + 2))).admitted_ids
  rw [hlen] at hids
  rw [hids] at h
  have hlength : ((List.range (u64Modulus + 2)).map
      (fun i => i % u64Modulus)).length = u64Modulus + 2 := by
    simp
  have h0 : (0 : Nat) <
      ((List.range (u64Modulus + 2)).map (fun i => i % u64Modulus)).length := by
    rw [hlength]
    omega
  have hW : u64Modulus <
      ((List.range (u64Modulus + 2)).map (fun i => i % u64Modulus)).length := by
    rw [hlength]
    omega
  have hlt := List.pairwise_iff_getElem.mp h 0 u64Modulus h0 hW
    (by have : 0 < u64Modulus := by norm_num [u64Modulus]
        omega)
  rw [List.getElem_map, List.getElem_map, List.getElem_range,
    List.getElem_range] at hlt
  simp [Nat.mod_self] at hlt

/-- For `n ≤ m`, reducing `0, ..., n - 1` modulo `m` changes nothing. -/
lemma range_map_mod {n m : Nat} (h : n ≤ m) :
    (List.range n).map (fun i => i % m) = List.range n := by
  conv_rhs => rw [(List.map_id (List.range n)).symm]
  apply List.map_congr_left
  intro a ha
  exact Nat.mod_eq_of_lt (lt_of_lt_of_le (List.mem_range.mp ha) h)

/-- C8 (amended): ids come from the pool-local wrapping 64-bit counter
starting at 0: at every reachable state the i-th admitted item carries id
`i % 2 ^ 64`; consequently, as long as the pool has admitted at most `2 ^ 64`
items, the assigned ids strictly increase in the order of admission. -/
theorem C8_id_mod (IN : Type) [DecidableEq IN] (name : WorkerName)
    (es : List (Event IN)) :
    ((exec name (initPool IN) es).admitted.map QueueItem.id =
      (List.range (exec name (initPool IN) es).admitted.length).map
        (fun i => i % u64Modulus)) ∧
    ((exec name (initPool IN) es).admitted.length ≤ u64Modulus →
      ((exec name (initPool IN) es).admitted.map QueueItem.id).Pairwise
        (· < ·)) := by
  have h := inv_exec_init name es
  refine ⟨h.admitted_ids, ?_⟩
  intro hle
  rw [h.admitted_ids, range_map_mod hle]
  exact List.pairwise_lt_range _

/-- Witness for C8 (amended): the single admission of `sampleRun` is within
the first `2 ^ 64`, so its ids are strictly increasing. -/
theorem C8_id_mod_witness :
    sampleRun.admitted.length ≤ u64Modulus ∧
    (sampleRun.admitted.map QueueItem.id).Pairwise (· < ·) :=
  ⟨by decide, (C8_id_mod Nat pname sampleEvents).2 (by decide)⟩

/-- C10: `Factory::is_empty` returns `false` for a name with no registered
pool (not an error and not `true`), and for a registered name returns exactly
whether that pool's FIFO is currently empty. -/
theorem C10_is_empty_spec (IN : Type) (f : FactoryState IN) (name : WorkerName) :
    (lookupManager f.managers name = none → is_empty f name = false) ∧
    (∀ m : PoolState IN, lookupManager f.managers name = some m →
      (is_empty f name = true ↔ m.queue = [])) := by
  constructor
  · intro h
    simp [is_empty, h]
  · intro m h
    simp [is_empty, h, List.isEmpty_iff]

/-- Witness for C10: an unregistered name gives `false`; the registered
`pname` of `sampleFactory` reports its empty FIFO. -/
theorem C10_is_empty_spec_witness :
    is_empty (initFactory Nat) pname = false ∧
    (is_empty sampleFactory pname = true ↔ (initPool Nat).queue = []) :=
  ⟨(C10_is_empty_spec Nat (initFactory Nat) pname).1 (by decide),
   (C10_is_empty_spec Nat sampleFactory pname).2 (initPool Nat) (by decide)⟩

end Aquadoggo
